import Mathlib

/-!
Shallow embedding of the `product-recommender` graph engine
(`graph_repository.py` and the node/edge selection part of
`visualization_service.py`).

The Neo4j property graph manipulated by `GraphRepository` is modelled as an
explicit `Store`:

* `User` nodes are their (unique) names;
* `Product` nodes are `(name, category)` pairs, keyed by name;
* `FOLLOWS` edges are ordered pairs of user names;
* `RATES` edges are `RateEdge` records `(user, product, rating, type)`.

Every repository method is translated into a pure Lean function over `Store`.
Python exceptions (`ValueError`) become the `Except.error` branch; a Boolean
`avail` parameter models whether the underlying database is reachable (the
`try/except Neo4jError` handlers of the source are the `avail = false`
branches).  Cypher `MATCH` clauses become list comprehensions over the stored
edge lists, `MERGE` becomes insert-if-absent (or update-in-place for the
`SET` clauses), `DETACH DELETE` removes a node together with every incident
edge, `ORDER BY` is an insertion sort by the listed keys, and `collect
(DISTINCT ..)` / `count(DISTINCT ..)` are list dedup and its length.  The
unspecified row order of the database is realised as the (deterministic)
order of the stored lists.

String ordering (`ORDER BY name`) is modelled as the lexicographic order on
the underlying character lists, and Python's `str.strip()` as dropping
whitespace characters from both ends of the character list.
-/

/-- A `RATES` edge: `(u:User)-[r:RATES {rating, type}]->(p:Product)`. -/
structure RateEdge where
  user : String
  product : String
  rating : Int
  rtype : String
deriving DecidableEq

/-- The property graph owned by the repository. -/
structure Store where
  users : List String
  products : List (String × Option String)
  follows : List (String × String)
  rates : List RateEdge
deriving DecidableEq

/-- Names of the existing `Product` nodes. -/
def Store.productNames (s : Store) : List String :=
  s.products.map Prod.fst

/-- Python's `str.strip()`: remove leading and trailing whitespace. -/
def pyStrip (name : String) : String :=
  ⟨((name.data.dropWhile Char.isWhitespace).reverse.dropWhile Char.isWhitespace).reverse⟩

/-- Lexicographic order on names, the order `ORDER BY name` sorts by. -/
def nameLe (a b : String) : Prop :=
  a.data ≤ b.data

instance : DecidableRel nameLe := fun a b =>
  inferInstanceAs (Decidable (a.data ≤ b.data))

instance : IsTotal String nameLe :=
  ⟨fun a b => le_total a.data b.data⟩

instance : IsTrans String nameLe :=
  ⟨fun _ _ _ h1 h2 => le_trans h1 h2⟩

/-- `add_user`: validates that the name is non-blank, then
`MERGE (u:User {name: $name}) RETURN u` and returns `True`;
on a database failure the handler returns `False`. -/
def add_user (avail : Bool) (s : Store) (name : String) : Except String (Store × Bool) :=
  if pyStrip name = "" then .error "User name cannot be empty"
  else if avail then
    (if pyStrip name ∈ s.users then .ok (s, true)
     else .ok ({ s with users := s.users ++ [pyStrip name] }, true))
  else .ok (s, false)

/-- `add_product`: validates that the name is non-blank, then
`MERGE (p:Product {name: $name}) SET p.category = $category RETURN p`
and returns `True`; the `SET` overwrites the category even when the node
already existed. -/
def add_product (avail : Bool) (s : Store) (name : String) (category : Option String) :
    Except String (Store × Bool) :=
  if pyStrip name = "" then .error "Product name cannot be empty"
  else if avail then
    (if pyStrip name ∈ s.productNames then
       .ok ({ s with products :=
                s.products.map (fun pc => if pc.1 = pyStrip name then (pyStrip name, category) else pc) },
            true)
     else .ok ({ s with products := s.products ++ [(pyStrip name, category)] }, true))
  else .ok (s, false)

/-- `delete_user`: `MATCH (u:User {name: $name}) DETACH DELETE u`, removing
the node and every incident edge; the function returns `True` whether or not
a node was matched (the query produces no records and none are inspected). -/
def delete_user (avail : Bool) (s : Store) (name : String) : Store × Bool :=
  if avail then
    ({ s with users := s.users.filter (fun u => u ≠ name),
              follows := s.follows.filter (fun e => e.1 ≠ name ∧ e.2 ≠ name),
              rates := s.rates.filter (fun r => r.user ≠ name) }, true)
  else (s, false)

/-- `delete_product`: `MATCH (p:Product {name: $name}) DETACH DELETE p`;
returns `True` whether or not a node was matched. -/
def delete_product (avail : Bool) (s : Store) (name : String) : Store × Bool :=
  if avail then
    ({ s with products := s.products.filter (fun pc => pc.1 ≠ name),
              rates := s.rates.filter (fun r => r.product ≠ name) }, true)
  else (s, false)

/-- `create_follow_relationship`: raises for a self-follow, otherwise
`MATCH (a:User {name: $follower}), (b:User {name: $followee})
MERGE (a)-[r:FOLLOWS]->(b) RETURN r`; the result row exists exactly when
both endpoints matched, so the function returns `True` in that case and
`False` (with a warning) when an endpoint is missing. -/
def create_follow_relationship (avail : Bool) (s : Store) (follower followee : String) :
    Except String (Store × Bool) :=
  if follower = followee then .error "A user cannot follow themselves"
  else if avail then
    (if follower ∈ s.users ∧ followee ∈ s.users then
       (if (follower, followee) ∈ s.follows then .ok (s, true)
        else .ok ({ s with follows := s.follows ++ [(follower, followee)] }, true))
     else .ok (s, false))
  else .ok (s, false)

/-- The `MERGE (u)-[r:RATES]->(p) SET r.rating = .., r.type = ..` effect:
update the edge in place when one exists, insert it otherwise. -/
def upsertRate (s : Store) (user product : String) (rating : Int) (rtype : String) : Store :=
  if s.rates.any (fun r => r.user = user ∧ r.product = product) then
    { s with rates := s.rates.map (fun r =>
        if r.user = user ∧ r.product = product then ⟨user, product, rating, rtype⟩ else r) }
  else { s with rates := s.rates ++ [⟨user, product, rating, rtype⟩] }

/-- `rate_product`: no validation of the rating range is performed.  The
Cypher statement `MATCH (u:User ..), (p:Product ..) MERGE (u)-[r:RATES]->(p)
SET r.rating = $rating, r.type = $type` both matches the endpoints and
upserts the edge, but it has no `RETURN` clause, so `_execute_query` always
yields an empty record list and the function always takes the
`User or product not found` branch, returning `False`. -/
def rate_product (avail : Bool) (s : Store) (user product : String) (rating : Int)
    (rtype : String) : Store × Bool :=
  if avail then
    (if user ∈ s.users ∧ product ∈ s.productNames then
       (upsertRate s user product rating rtype, false)
     else (s, false))
  else (s, false)

/-- `get_all_users`: `MATCH (u:User) RETURN u.name as name ORDER BY name`;
the `except` handler returns the empty list. -/
def get_all_users (avail : Bool) (s : Store) : List String :=
  if avail then s.users.insertionSort nameLe else []

/-- `get_all_products`: `MATCH (p:Product) RETURN p.name as name ORDER BY name`;
the `except` handler returns the empty list. -/
def get_all_products (avail : Bool) (s : Store) : List String :=
  if avail then s.productNames.insertionSort nameLe else []

/-- The statistics record returned by `get_user_stats`. -/
structure UserStats where
  following_count : Nat
  follower_count : Nat
  rated_count : Nat
deriving DecidableEq

/-- `get_user_stats`: `MATCH (u:User {name})` with three `OPTIONAL MATCH`
clauses, returning `count(DISTINCT ..)` of followees, followers and rated
products; zeros when the user does not exist or the store is unavailable. -/
def get_user_stats (avail : Bool) (s : Store) (name : String) : UserStats :=
  if avail then
    (if name ∈ s.users then
       { following_count := ((s.follows.filter (fun e => e.1 = name)).map Prod.snd).dedup.length,
         follower_count := ((s.follows.filter (fun e => e.2 = name)).map Prod.fst).dedup.length,
         rated_count := ((s.rates.filter (fun r => r.user = name)).map RateEdge.product).dedup.length }
     else ⟨0, 0, 0⟩)
  else ⟨0, 0, 0⟩

/-- One entry of the friend-based recommendation list. -/
structure FriendRec where
  product : String
  recommendation_count : Nat
  recommended_by : List String
deriving DecidableEq

/-- Rows of `MATCH (u:User {name})-[:FOLLOWS]->(friend)-[r:RATES]->(p:Product)
WHERE r.rating >= $min_rating AND NOT (u)-[:RATES]->(p)`, as
`(friend, product)` pairs. -/
def friendRows (s : Store) (name : String) (minRating : Int) : List (String × String) :=
  if name ∈ s.users then
    (s.follows.filter (fun e => e.1 = name)).flatMap (fun e =>
      ((s.rates.filter (fun r => r.user = e.2 ∧ minRating ≤ r.rating
          ∧ r.product ∈ s.productNames
          ∧ ¬ s.rates.any (fun r0 => r0.user = name ∧ r0.product = r.product))).map
        (fun r => (e.2, r.product))))
  else []

/-- `WITH p, collect(DISTINCT friend.name) .., count(DISTINCT friend) ..`:
group rows by product, collecting the distinct friends of each product. -/
def groupByProduct (rows : List (String × String)) : List (String × List String) :=
  (rows.map Prod.snd).dedup.map (fun p =>
    (p, ((rows.filter (fun x => x.2 = p)).map Prod.fst).dedup))

/-- Sort key of `ORDER BY friend_count DESC, p.name` on the result records. -/
def frOrder (a b : FriendRec) : Prop :=
  b.recommendation_count < a.recommendation_count
  ∨ (a.recommendation_count = b.recommendation_count ∧ nameLe a.product b.product)

instance : DecidableRel frOrder := fun a b =>
  inferInstanceAs (Decidable (b.recommendation_count < a.recommendation_count
    ∨ (a.recommendation_count = b.recommendation_count ∧ nameLe a.product b.product)))

instance : IsTotal FriendRec frOrder := by
  constructor
  intro a b
  rcases Nat.lt_trichotomy a.recommendation_count b.recommendation_count with h | h | h
  · exact Or.inr (Or.inl h)
  · rcases total_of nameLe a.product b.product with h2 | h2
    · exact Or.inl (Or.inr ⟨h, h2⟩)
    · exact Or.inr (Or.inr ⟨h.symm, h2⟩)
  · exact Or.inl (Or.inl h)

instance : IsTrans FriendRec frOrder := by
  constructor
  intro a b c h1 h2
  rcases h1 with h1 | ⟨e1, p1⟩
  · rcases h2 with h2 | ⟨e2, _⟩
    · exact Or.inl (h2.trans h1)
    · exact Or.inl (e2 ▸ h1)
  · rcases h2 with h2 | ⟨e2, p2⟩
    · exact Or.inl (e1 ▸ h2)
    · exact Or.inr ⟨e1.trans e2, le_trans (α := List Char) p1 p2⟩

/-- `recommend_by_friends`: the grouped rows with `friend_count >=
$min_friends`, returned as records ordered by
`friend_count DESC, p.name`; the `except` handler returns the empty list. -/
def recommend_by_friends (avail : Bool) (s : Store) (name : String) (minFriends : Int)
    (minRating : Int) : List FriendRec :=
  if avail then
    (((groupByProduct (friendRows s name minRating)).filter
        (fun g => minFriends ≤ (g.2.length : Int))).map
      (fun g => FriendRec.mk g.1 g.2.length g.2)).insertionSort frOrder
  else []

/-- One entry of the collaborative-filtering recommendation list. -/
structure CollabRec where
  product : String
  recommendation_weight : Nat
  average_rating : ℚ
  recommended_by_similar : List String
deriving DecidableEq

/-- Neo4j's `round`: to the nearest integer, halves up. -/
def cypherRound (q : ℚ) : ℤ :=
  ⌊q + 1 / 2⌋

/-- Rows of the similarity-discovery stage
`MATCH (u:User {name})-[r1:RATES]->(p:Product)<-[r2:RATES]-(similar:User)
WHERE abs(r1.rating - r2.rating) <= $threshold`, as `(similar, product)`
pairs.  Cypher matches only pairs of distinct relationships, and `MERGE`
keeps at most one `RATES` edge per `(user, product)`, so two distinct
`RATES` edges into the same product differ in their user: `r1 ≠ r2` is
rendered as `r2.user ≠ r1.user`. -/
def simRows (s : Store) (name : String) (threshold : Int) : List (String × String) :=
  if name ∈ s.users then
    s.rates.flatMap (fun r1 =>
      if r1.user = name ∧ r1.product ∈ s.productNames then
        (s.rates.filter (fun r2 => r2.product = r1.product ∧ r2.user ≠ r1.user
            ∧ r2.user ∈ s.users ∧ |r1.rating - r2.rating| ≤ threshold)).map
          (fun r2 => (r2.user, r1.product))
      else [])
  else []

/-- `WITH similar, u, count(*) as shared_products WHERE shared_products >= 2`:
the candidate users that share at least two close-rated products. -/
def similarUsers (s : Store) (name : String) (threshold : Int) : List String :=
  ((simRows s name threshold).map Prod.fst).dedup.filter
    (fun sim => 2 ≤ ((simRows s name threshold).filter (fun x => x.1 = sim)).length)

/-- Rows of the recommendation stage `MATCH (similar)-[r3:RATES]->(rec:Product)
WHERE NOT (u)-[:RATES]->(rec) AND r3.rating >= $min_rating`, as
`(similar, product, rating)` triples. -/
def collabRows (s : Store) (name : String) (threshold minRating : Int) :
    List (String × String × Int) :=
  (similarUsers s name threshold).flatMap (fun sim =>
    ((s.rates.filter (fun r3 => r3.user = sim ∧ minRating ≤ r3.rating
        ∧ r3.product ∈ s.productNames
        ∧ ¬ s.rates.any (fun r0 => r0.user = name ∧ r0.product = r3.product))).map
      (fun r3 => (sim, r3.product, r3.rating))))

/-- Grouping `WITH rec, collect(DISTINCT similar.name) .., count(DISTINCT
similar) .., avg(r3.rating) ..`: per product, the distinct similar users and
the (exact, unrounded) average of the row ratings. -/
def collabGroups (s : Store) (name : String) (threshold minRating : Int) :
    List (String × Nat × ℚ × List String) :=
  ((collabRows s name threshold minRating).map (fun x => x.2.1)).dedup.map (fun p =>
    let g := (collabRows s name threshold minRating).filter (fun x => x.2.1 = p)
    let sims := (g.map Prod.fst).dedup
    (p, sims.length, (g.map (fun x => ((x.2.2 : ℚ)))).sum / (g.length : ℚ), sims))

/-- Sort key of `ORDER BY recommendation_weight DESC, avg_rating DESC` on the
grouped (still unrounded) rows. -/
def cgOrder (a b : String × Nat × ℚ × List String) : Prop :=
  b.2.1 < a.2.1 ∨ (a.2.1 = b.2.1 ∧ b.2.2.1 ≤ a.2.2.1)

instance : DecidableRel cgOrder := fun a b =>
  inferInstanceAs (Decidable (b.2.1 < a.2.1 ∨ (a.2.1 = b.2.1 ∧ b.2.2.1 ≤ a.2.2.1)))

instance : IsTotal (String × Nat × ℚ × List String) cgOrder := by
  constructor
  intro a b
  rcases Nat.lt_trichotomy a.2.1 b.2.1 with h | h | h
  · exact Or.inr (Or.inl h)
  · rcases le_total b.2.2.1 a.2.2.1 with h2 | h2
    · exact Or.inl (Or.inr ⟨h, h2⟩)
    · exact Or.inr (Or.inr ⟨h.symm, h2⟩)
  · exact Or.inl (Or.inl h)

instance : IsTrans (String × Nat × ℚ × List String) cgOrder := by
  constructor
  intro a b c h1 h2
  rcases h1 with h1 | ⟨e1, p1⟩
  · rcases h2 with h2 | ⟨e2, _⟩
    · exact Or.inl (h2.trans h1)
    · exact Or.inl (e2 ▸ h1)
  · rcases h2 with h2 | ⟨e2, p2⟩
    · exact Or.inl (e1 ▸ h2)
    · exact Or.inr ⟨e1.trans e2, p2.trans p1⟩

/-- `recommend_collaborative`: the grouped rows ordered by
`recommendation_weight DESC, avg_rating DESC` (no further key), with
`round(avg_rating * 100) / 100` applied in the `RETURN` clause; the `except`
handler returns the empty list. -/
def recommend_collaborative (avail : Bool) (s : Store) (name : String)
    (threshold minRating : Int) : List CollabRec :=
  if avail then
    (((collabGroups s name threshold minRating).insertionSort cgOrder).map
      (fun g => CollabRec.mk g.1 g.2.1 ((cypherRound (g.2.2.1 * 100) : ℚ) / 100) g.2.2.2))
  else []

/-- A node of the visualized graph, identified (as Neo4j `element_id`
identifies it) by its kind and name. -/
inductive GNode where
  | user (name : String)
  | product (name : String)
deriving DecidableEq

/-- A relationship of the visualized graph. -/
inductive GRel where
  | followsRel (a b : String)
  | ratesRel (r : RateEdge)
deriving DecidableEq

/-- `rel.start_node` of the (directed) relationship. -/
def GRel.src : GRel → GNode
  | .followsRel a _ => .user a
  | .ratesRel r => .user r.user

/-- `rel.end_node` of the (directed) relationship. -/
def GRel.tgt : GRel → GNode
  | .followsRel _ b => .user b
  | .ratesRel r => .product r.product

/-- `rel.type` of the relationship. -/
def GRel.kind : GRel → String
  | .followsRel _ _ => "FOLLOWS"
  | .ratesRel _ => "RATES"

/-- All relationships of the store. -/
def storeRels (s : Store) : List GRel :=
  s.follows.map (fun e => .followsRel e.1 e.2) ++ s.rates.map .ratesRel

/-- One undirected traversal step: the relationships incident to `n`
together with their opposite endpoint. -/
def stepFrom (s : Store) (n : GNode) : List (GRel × GNode) :=
  (storeRels s).filterMap (fun r =>
    if r.src = n then some (r, r.tgt)
    else if r.tgt = n then some (r, r.src) else none)

/-- All traversed step sequences of `-[*1..d]-` starting at `n`: between one
and `d` undirected hops, never reusing a relationship within one path
(Cypher's relationship-uniqueness), avoiding those in `used`. -/
def pathsUpTo (s : Store) : Nat → GNode → List GRel → List (List (GRel × GNode))
  | 0, _, _ => []
  | d + 1, n, used =>
    ((stepFrom s n).filter (fun pr => pr.1 ∉ used)).flatMap (fun pr =>
      [pr] :: (pathsUpTo s d pr.2 (pr.1 :: used)).map (fun rest => pr :: rest))

/-- A returned path: its start node and its steps. -/
structure GPath where
  start : GNode
  steps : List (GRel × GNode)
deriving DecidableEq

/-- `get_user_network`: raises unless `1 <= depth <= 3`, then
`MATCH path = (u:User {name: $name})-[*1..depth]-(node) RETURN path
LIMIT 200`; the `except` handler returns `None`. -/
def get_user_network (avail : Bool) (s : Store) (name : String) (depth : Int) :
    Except String (Option (List GPath)) :=
  if 1 ≤ depth ∧ depth ≤ 3 then
    (if avail then
       .ok (some (((if name ∈ s.users then pathsUpTo s depth.toNat (GNode.user name) [] else []).map
         (fun st => GPath.mk (GNode.user name) st)).take 200))
     else .ok none)
  else .error "Depth must be between 1 and 3"

/-- Append an element unless it is already present (the
`if x not in added: add(x)` pattern of the visualization service). -/
def addIfNew {α : Type} [DecidableEq α] (l : List α) (x : α) : List α :=
  if x ∈ l then l else l ++ [x]

/-- The node list of a path as `pyvis` walks it. -/
def GPath.nodes (p : GPath) : List GNode :=
  p.start :: p.steps.map Prod.snd

/-- `create_user_network` of the visualization service: walk the returned
paths, emitting every node once (keyed by its identity) and every
relationship once (keyed by `(start_node, end_node, type)`). -/
def create_user_network (paths : List GPath) :
    List GNode × List (GNode × GNode × String) :=
  paths.foldl (fun acc p =>
    (p.steps.map Prod.fst).foldl
      (fun a r => (a.1, addIfNew a.2 (r.src, r.tgt, r.kind)))
      (p.nodes.foldl (fun a n => (addIfNew a.1 n, a.2)) acc))
    ([], [])

/-- Well-formedness of a store, as the uniqueness constraints and the
`MATCH`-guarded edge creation of the repository guarantee it: node names are
unique per kind, at most one `FOLLOWS` edge per ordered pair, at most one
`RATES` edge per `(user, product)`, and edge endpoints exist. -/
def WF (s : Store) : Prop :=
  s.users.Nodup ∧ s.productNames.Nodup ∧ s.follows.Nodup
  ∧ (s.rates.map (fun r => (r.user, r.product))).Nodup
  ∧ (∀ e ∈ s.follows, e.1 ∈ s.users ∧ e.2 ∈ s.users)
  ∧ (∀ r ∈ s.rates, r.user ∈ s.users ∧ r.product ∈ s.productNames)

instance (s : Store) : Decidable (WF s) :=
  inferInstanceAs (Decidable (_ ∧ _ ∧ _ ∧ _ ∧ _ ∧ _))

/-- Stated from the claim: the distinct set of friends that `name` directly
follows and that rated `p` with rating at least `minRating`. -/
def qualFriends (s : Store) (name p : String) (minRating : Int) : Finset String :=
  (((s.follows.filter (fun e => e.1 = name)).map Prod.snd).toFinset).filter
    (fun f => ∃ r ∈ s.rates, r.user = f ∧ r.product = p ∧ minRating ≤ r.rating)

/-- Stated from the claim: `name` has rated `p` (at any rating). -/
def hasRated (s : Store) (name p : String) : Prop :=
  ∃ r ∈ s.rates, r.user = name ∧ r.product = p

instance (s : Store) (name p : String) : Decidable (hasRated s name p) :=
  inferInstanceAs (Decidable (∃ r ∈ s.rates, r.user = name ∧ r.product = p))

/-- Stated from the claim: the products rated by both `name` and `other`
with absolute rating difference at most `threshold`. -/
def sharedCloseProducts (s : Store) (name other : String) (threshold : Int) : Finset String :=
  (((s.rates.filter (fun r => r.user = name)).map RateEdge.product).toFinset).filter
    (fun p => ∃ r1 ∈ s.rates, ∃ r2 ∈ s.rates, r1.user = name ∧ r2.user = other
      ∧ r1.product = p ∧ r2.product = p ∧ |r1.rating - r2.rating| ≤ threshold)

/-- Stated from the claim: the full ordering claimed for the collaborative
list, weight descending, then average descending, then name ascending. -/
def claimedCollabOrder (a b : CollabRec) : Prop :=
  b.recommendation_weight < a.recommendation_weight
  ∨ (a.recommendation_weight = b.recommendation_weight ∧ b.average_rating < a.average_rating)
  ∨ (a.recommendation_weight = b.recommendation_weight ∧ a.average_rating = b.average_rating
      ∧ nameLe a.product b.product)

instance : DecidableRel claimedCollabOrder := fun a b =>
  inferInstanceAs (Decidable (_ ∨ _ ∨ _))

/-- The ordering the collaborative list actually satisfies: weight
descending, then (rounded) average descending. -/
def collabOutOrder (a b : CollabRec) : Prop :=
  b.recommendation_weight < a.recommendation_weight
  ∨ (a.recommendation_weight = b.recommendation_weight ∧ b.average_rating ≤ a.average_rating)

/-- The empty graph. -/
def storeEmpty : Store := ⟨[], [], [], []⟩

/-- A store with one user and one product and no edges. -/
def storeUP : Store := ⟨["u"], [("p", none)], [], []⟩

/-- The end-to-end scenario of the specification: Alice follows Bob and
Charlie, Bob rates Widget 5 and Charlie rates Widget 4. -/
def storeE2E : Store :=
  ⟨["Alice", "Bob", "Charlie"], [("Widget", none)],
   [("Alice", "Bob"), ("Alice", "Charlie")],
   [⟨"Bob", "Widget", 5, "recommends"⟩, ⟨"Charlie", "Widget", 4, "recommends"⟩]⟩

/-- A store on which the collaborative list has two entries tied in weight
and average: `u` and `s` agree on `X1` and `X2`, and `s` also rated `B` and
`A` (in that edge order) at `5`. -/
def storeTie : Store :=
  ⟨["u", "s"], [("X1", none), ("X2", none), ("B", none), ("A", none)], [],
   [⟨"u", "X1", 5, "rates"⟩, ⟨"u", "X2", 5, "rates"⟩,
    ⟨"s", "X1", 5, "rates"⟩, ⟨"s", "X2", 5, "rates"⟩,
    ⟨"s", "B", 5, "recommends"⟩, ⟨"s", "A", 5, "recommends"⟩]⟩

/-- A store where `v` shares exactly two close-rated products with `u` and
has rated a third product `u` has not rated. -/
def storeSim : Store :=
  ⟨["u", "v"], [("P1", none), ("P2", none), ("P3", none)], [],
   [⟨"u", "P1", 5, "rates"⟩, ⟨"u", "P2", 4, "rates"⟩,
    ⟨"v", "P1", 5, "rates"⟩, ⟨"v", "P2", 4, "rates"⟩,
    ⟨"v", "P3", 5, "recommends"⟩]⟩

/-- A non-empty store (used to compare a failing read against an empty
successful one). -/
def storeRich : Store :=
  ⟨["Alice", "Bob"], [("Widget", some "Toys")], [("Alice", "Bob")],
   [⟨"Alice", "Widget", 5, "recommends"⟩]⟩

/-- A store with a single isolated user. -/
def storeLone : Store := ⟨["A"], [], [], []⟩

/-- A store with two users and no edges. -/
def storeFol : Store := ⟨["A", "B"], [], [], []⟩

/-- Number of occurrences of `x` in `l` (how many nodes or edges of a given
identity a store holds). -/
def countOcc {α : Type} [DecidableEq α] (l : List α) (x : α) : Nat :=
  (l.filter (fun y => y = x)).length

/-- Claim C1: the claim states that `rate_product` validates the rating
range (raising for ratings outside `1..5`) and returns `true` when both
endpoints exist and the rating is in range.  On the code, no range check
exists and the upsert query has no `RETURN` clause, so even a successful
in-range rating stores the edge and returns `false`, and an out-of-range
rating `0` stores an edge silently: both recorded here by evaluating the
embedded function on a store holding user `u` and product `p`. -/
theorem claim1_rate_product_divergence :
    rate_product true storeUP "u" "p" 5 "recommends" =
      ({ storeUP with rates := [⟨"u", "p", 5, "recommends"⟩] }, false)
    ∧ rate_product true storeUP "u" "p" 0 "rates" =
      ({ storeUP with rates := [⟨"u", "p", 0, "rates"⟩] }, false)
    ∧ rate_product true storeUP "zoe" "p" 5 "recommends" = (storeUP, false) := by
  decide

/-- Claim C2, counterexample: `delete_user` on a store containing no node
named `Alice` still returns `true`, while the claim requires `false` when
no node with that name existed. -/
theorem claim2_counterexample :
    "Alice" ∉ storeEmpty.users ∧ (delete_user true storeEmpty "Alice").2 = true := by
  decide

/-- Claim C2, amended: `delete_user name` removes the named user node and
every incident edge in both directions, leaves products, other users and
edges between other nodes unchanged, and returns `true` regardless of
whether a node with that name existed; symmetrically for
`delete_product`. -/
theorem claim2_amended (s : Store) (name x : String) (e : String × String) (r : RateEdge)
    (pc : String × Option String) (hx : x ≠ name) (hpc : pc.1 ≠ name) :
    (delete_user true s name).2 = true
    ∧ name ∉ (delete_user true s name).1.users
    ∧ ((x ∈ (delete_user true s name).1.users) ↔ x ∈ s.users)
    ∧ (delete_user true s name).1.products = s.products
    ∧ ((e ∈ (delete_user true s name).1.follows) ↔ (e ∈ s.follows ∧ e.1 ≠ name ∧ e.2 ≠ name))
    ∧ ((r ∈ (delete_user true s name).1.rates) ↔ (r ∈ s.rates ∧ r.user ≠ name))
    ∧ (delete_product true s name).2 = true
    ∧ name ∉ (delete_product true s name).1.productNames
    ∧ (delete_product true s name).1.users = s.users
    ∧ (delete_product true s name).1.follows = s.follows
    ∧ ((pc ∈ (delete_product true s name).1.products) ↔ pc ∈ s.products)
    ∧ ((r ∈ (delete_product true s name).1.rates) ↔ (r ∈ s.rates ∧ r.product ≠ name)) := by
  refine ⟨rfl, ?_, ?_, rfl, ?_, ?_, rfl, ?_, rfl, rfl, ?_, ?_⟩
  · simp [delete_user, List.mem_filter]
  · simp [delete_user, List.mem_filter, hx]
  · simp [delete_user, List.mem_filter, and_assoc]
  · simp [delete_user, List.mem_filter]
  · simp [delete_product, Store.productNames, List.mem_filter]
  · simp [delete_product, List.mem_filter, hpc]
  · simp [delete_product, List.mem_filter]

/-- Claim C2, witness for the amended statement on the end-to-end store. -/
theorem claim2_witness :
    (delete_user true storeE2E "Alice").2 = true
    ∧ "Alice" ∉ (delete_user true storeE2E "Alice").1.users
    ∧ (("Bob" ∈ (delete_user true storeE2E "Alice").1.users) ↔ "Bob" ∈ storeE2E.users)
    ∧ (delete_user true storeE2E "Alice").1.products = storeE2E.products
    ∧ ((("Alice", "Bob") ∈ (delete_user true storeE2E "Alice").1.follows) ↔
        (("Alice", "Bob") ∈ storeE2E.follows ∧ "Alice" ≠ "Alice" ∧ "Bob" ≠ "Alice"))
    ∧ ((RateEdge.mk "Bob" "Widget" 5 "recommends" ∈ (delete_user true storeE2E "Alice").1.rates) ↔
        (RateEdge.mk "Bob" "Widget" 5 "recommends" ∈ storeE2E.rates ∧ "Bob" ≠ "Alice"))
    ∧ (delete_product true storeE2E "Alice").2 = true
    ∧ "Alice" ∉ (delete_product true storeE2E "Alice").1.productNames
    ∧ (delete_product true storeE2E "Alice").1.users = storeE2E.users
    ∧ (delete_product true storeE2E "Alice").1.follows = storeE2E.follows
    ∧ ((("Widget", (none : Option String)) ∈ (delete_product true storeE2E "Alice").1.products) ↔
        ("Widget", (none : Option String)) ∈ storeE2E.products)
    ∧ ((RateEdge.mk "Bob" "Widget" 5 "recommends" ∈ (delete_product true storeE2E "Alice").1.rates) ↔
        (RateEdge.mk "Bob" "Widget" 5 "recommends" ∈ storeE2E.rates ∧ "Widget" ≠ "Alice")) :=
  claim2_amended storeE2E "Alice" "Bob" ("Alice", "Bob")
    (RateEdge.mk "Bob" "Widget" 5 "recommends") ("Widget", none) (by decide) (by decide)

/-- Claim C9, counterexample: a failing read on a non-empty store is
indistinguishable from the same read succeeding on an empty store — every
listed read returns the identical empty or zero value in both situations,
so a caller cannot tell a store failure from no data. -/
theorem claim9_counterexample :
    get_all_users false storeRich = get_all_users true storeEmpty
    ∧ get_all_products false storeRich = get_all_products true storeEmpty
    ∧ get_user_stats false storeRich "Alice" = get_user_stats true storeEmpty "Alice"
    ∧ recommend_by_friends false storeRich "Alice" 1 4 =
        recommend_by_friends true storeEmpty "Alice" 1 4
    ∧ recommend_collaborative false storeRich "Alice" 1 4 =
        recommend_collaborative true storeEmpty "Alice" 1 4 :=
  ⟨rfl, rfl, rfl, rfl, rfl⟩

/-- Claim C9, amended: when the backing store is unavailable every read
catches the error, logs it, and returns the empty list (or the zero
statistics record) — the same values a successful query of an empty store
produces, not a distinct failure signal. -/
theorem claim9_amended (s : Store) (name : String) (minFriends minRating threshold minR2 : Int) :
    get_all_users false s = []
    ∧ get_all_products false s = []
    ∧ get_user_stats false s name = ⟨0, 0, 0⟩
    ∧ recommend_by_friends false s name minFriends minRating = []
    ∧ recommend_collaborative false s name threshold minR2 = [] :=
  ⟨rfl, rfl, rfl, rfl, rfl⟩

/-- Claim C10: for a name with no `User` node, both recommenders return the
empty list — the `MATCH (u:User {name: $name})` anchor produces no rows, no
error is raised (the embedded functions are total) and the store is not
touched (they do not return a store). -/
theorem claim10_missing_user (s : Store) (name : String)
    (minFriends minRating threshold minR2 : Int) (h : name ∉ s.users) :
    recommend_by_friends true s name minFriends minRating = []
    ∧ recommend_collaborative true s name threshold minR2 = [] := by
  constructor
  · simp [recommend_by_friends, friendRows, h, groupByProduct]
  · simp [recommend_collaborative, collabGroups, collabRows, similarUsers, simRows, h]

/-- Claim C10, witness: `Zoe` is not a user of the end-to-end store and
both recommenders return the empty list for her. -/
theorem claim10_witness :
    recommend_by_friends true storeE2E "Zoe" 1 4 = []
    ∧ recommend_collaborative true storeE2E "Zoe" 1 4 = [] :=
  claim10_missing_user storeE2E "Zoe" 1 4 1 4 (by decide)

/-- Rounding to two decimals is monotone. -/
theorem roundedAvg_mono {a b : ℚ} (h : a ≤ b) :
    (cypherRound (a * 100) : ℚ) / 100 ≤ (cypherRound (b * 100) : ℚ) / 100 := by
  have h1 : cypherRound (a * 100) ≤ cypherRound (b * 100) := by
    unfold cypherRound
    exact Int.floor_le_floor (by linarith)
  have h2 : ((cypherRound (a * 100) : ℤ) : ℚ) ≤ ((cypherRound (b * 100) : ℤ) : ℚ) := by
    exact_mod_cast h1
  linarith

/-- Claim C5, amended: `recommend_by_friends` is ordered by
`recommendation_count` descending with product name ascending as tie-break,
while `recommend_collaborative` is ordered by `recommendation_weight`
descending and then `average_rating` descending only — entries equal in
both keys keep the engine's group order, with no name tie-break. -/
theorem claim5_amended (avail : Bool) (s : Store) (name : String)
    (minFriends minRating threshold minR2 : Int) :
    List.Sorted frOrder (recommend_by_friends avail s name minFriends minRating)
    ∧ List.Sorted collabOutOrder (recommend_collaborative avail s name threshold minR2) := by
  constructor
  · cases avail
    · exact List.sorted_nil
    · exact List.sorted_insertionSort frOrder _
  · cases avail
    · exact List.sorted_nil
    · have hs : List.Pairwise cgOrder
          ((collabGroups s name threshold minR2).insertionSort cgOrder) :=
        List.sorted_insertionSort cgOrder _
      have h2 : List.Pairwise (fun g1 g2 => collabOutOrder
          (CollabRec.mk g1.1 g1.2.1 ((cypherRound (g1.2.2.1 * 100) : ℚ) / 100) g1.2.2.2)
          (CollabRec.mk g2.1 g2.2.1 ((cypherRound (g2.2.2.1 * 100) : ℚ) / 100) g2.2.2.2))
          ((collabGroups s name threshold minR2).insertionSort cgOrder) := by
        refine hs.imp ?_
        intro g1 g2 h
        rcases h with h | ⟨he, hle⟩
        · exact Or.inl h
        · exact Or.inr ⟨he, roundedAvg_mono hle⟩
      exact (List.pairwise_map).mpr h2

/-- Claim C5, counterexample: on `storeTie` the collaborative list has two
entries tied in weight and average with products `B` before `A`, yet the
claimed ordering requires the name-ascending tie-break `A` before `B`. -/
theorem claim5_counterexample :
    recommend_collaborative true storeTie "u" 1 4 =
      [⟨"B", 1, 5, ["s"]⟩, ⟨"A", 1, 5, ["s"]⟩]
    ∧ ¬ claimedCollabOrder (CollabRec.mk "B" 1 5 ["s"]) (CollabRec.mk "A" 1 5 ["s"])
    ∧ nameLe "A" "B" := by
  refine ⟨?_, by decide, by decide⟩
  have hrows : collabRows storeTie "u" 1 4 = [("s", "B", 5), ("s", "A", 5)] := by decide
  simp [recommend_collaborative, collabGroups, hrows, List.insertionSort, List.orderedInsert,
    cgOrder, cypherRound]
  norm_num
/-- Every element of a duplicate-free list occurs in it exactly once. -/
theorem countOcc_eq_one_of_nodup_mem {α : Type} [DecidableEq α] {l : List α} {x : α}
    (h : l.Nodup) (hx : x ∈ l) : countOcc l x = 1 := by
  induction l with
  | nil => exact absurd hx (List.not_mem_nil x)
  | cons a l ih =>
    rcases List.nodup_cons.mp h with ⟨ha, hl⟩
    rcases List.mem_cons.mp hx with hxa | hxl
    · have hnot : x ∉ l := hxa ▸ ha
      have h0 : (l.filter (fun y => y = x)).length = 0 := by
        rw [List.length_eq_zero, List.filter_eq_nil_iff]
        intro b hb
        simp only [decide_eq_true_eq]
        exact fun hbx => hnot (hbx ▸ hb)
      simp [countOcc, hxa.symm, h0]
    · have hax : ¬(a = x) := fun hax => ha (hax ▸ hxl)
      simp only [countOcc, List.filter_cons]
      simp [hax, ih hl hxl, countOcc] at *
      exact ih hl hxl

/-- Occurrence counting distributes over append. -/
theorem countOcc_append {α : Type} [DecidableEq α] (l1 l2 : List α) (x : α) :
    countOcc (l1 ++ l2) x = countOcc l1 x + countOcc l2 x := by
  simp [countOcc, List.filter_append]

/-- An absent element occurs zero times. -/
theorem countOcc_eq_zero_of_not_mem {α : Type} [DecidableEq α] {l : List α} {x : α}
    (hx : x ∉ l) : countOcc l x = 0 := by
  rw [countOcc, List.length_eq_zero, List.filter_eq_nil_iff]
  intro b hb
  simp only [decide_eq_true_eq]
  exact fun hbx => hx (hbx ▸ hb)

/-- A singleton holds its element once. -/
theorem countOcc_singleton {α : Type} [DecidableEq α] (x : α) : countOcc [x] x = 1 := by
  simp [countOcc]

/-- Helper for claim C6: `add_user` is an idempotent upsert. -/
theorem add_user_idem (s : Store) (name : String) (hU : s.users.Nodup)
    (hname : pyStrip name ≠ "") :
    ∃ s1, add_user true s name = .ok (s1, true) ∧ add_user true s1 name = .ok (s1, true)
      ∧ countOcc s1.users (pyStrip name) = 1 := by
  by_cases hu : pyStrip name ∈ s.users
  · exact ⟨s, by simp [add_user, hname, hu], by simp [add_user, hname, hu],
      countOcc_eq_one_of_nodup_mem hU hu⟩
  · refine ⟨{ s with users := s.users ++ [pyStrip name] }, by simp [add_user, hname, hu], ?_, ?_⟩
    · simp [add_user, hname]
    · simp [countOcc_append, countOcc_eq_zero_of_not_mem hu, countOcc_singleton]

/-- Helper for claim C6: the category-overwriting map leaves product keys
unchanged. -/
theorem productNames_replace (l : List (String × Option String)) (n : String)
    (cat : Option String) :
    (l.map (fun pc => if pc.1 = n then (n, cat) else pc)).map Prod.fst = l.map Prod.fst := by
  rw [List.map_map]
  apply List.map_congr_left
  intro pc _
  by_cases h : pc.1 = n <;> simp [h]

/-- Helper for claim C6: replacing key-`n` entries by `(n, cat)` is the
identity when every key-`n` entry already equals `(n, cat)`. -/
theorem map_replace_self (l : List (String × Option String)) (n : String)
    (cat : Option String) (hF : ∀ pc ∈ l, pc.1 = n → pc = (n, cat)) :
    l.map (fun pc => if pc.1 = n then (n, cat) else pc) = l := by
  calc l.map (fun pc => if pc.1 = n then (n, cat) else pc)
      = l.map id := by
        apply List.map_congr_left
        intro pc hpc
        by_cases h : pc.1 = n
        · simp [h, (hF pc hpc h).symm]
        · simp [h]
    _ = l := List.map_id l

/-- Helper for claim C6: `add_product` is an idempotent upsert. -/
theorem add_product_idem (s : Store) (name : String) (cat : Option String)
    (hP : s.productNames.Nodup) (hname : pyStrip name ≠ "") :
    ∃ s2, add_product true s name cat = .ok (s2, true)
      ∧ add_product true s2 name cat = .ok (s2, true)
      ∧ countOcc s2.productNames (pyStrip name) = 1 := by
  by_cases hp : pyStrip name ∈ s.productNames
  · refine ⟨{ s with products := s.products.map (fun pc => if pc.1 = pyStrip name then (pyStrip name, cat) else pc) }, by simp [add_product, hname, hp], ?_, ?_⟩
    · have hkeys : ({ s with products := s.products.map (fun pc => if pc.1 = pyStrip name then (pyStrip name, cat) else pc) } : Store).productNames = s.productNames :=
        productNames_replace s.products (pyStrip name) cat
      have hmem : pyStrip name ∈ ({ s with products := s.products.map (fun pc => if pc.1 = pyStrip name then (pyStrip name, cat) else pc) } : Store).productNames := by
        rw [hkeys]
        exact hp
      have hid : (s.products.map (fun pc => if pc.1 = pyStrip name then (pyStrip name, cat) else pc)).map (fun pc => if pc.1 = pyStrip name then (pyStrip name, cat) else pc) = s.products.map (fun pc => if pc.1 = pyStrip name then (pyStrip name, cat) else pc) := by
        apply map_replace_self
        intro pc hpc hkey
        rcases List.mem_map.mp hpc with ⟨pc0, _, hpc0⟩
        by_cases h0 : pc0.1 = pyStrip name
        · rw [← hpc0]
          simp [h0]
        · rw [← hpc0] at hkey
          simp [h0] at hkey
      simp [add_product, hname, hmem, hid]
    · have hkeys : ({ s with products := s.products.map (fun pc => if pc.1 = pyStrip name then (pyStrip name, cat) else pc) } : Store).productNames = s.productNames :=
        productNames_replace s.products (pyStrip name) cat
      rw [hkeys]
      exact countOcc_eq_one_of_nodup_mem hP hp
  · refine ⟨{ s with products := s.products ++ [(pyStrip name, cat)] }, by simp [add_product, hname, hp], ?_, ?_⟩
    · have hkeys : ({ s with products := s.products ++ [(pyStrip name, cat)] } : Store).productNames = s.productNames ++ [pyStrip name] := by
        simp [Store.productNames]
      have hmem : pyStrip name ∈ ({ s with products := s.products ++ [(pyStrip name, cat)] } : Store).productNames := by
        rw [hkeys]
        exact List.mem_append_right _ (List.mem_singleton_self _)
      have hid : (s.products ++ [(pyStrip name, cat)]).map (fun pc => if pc.1 = pyStrip name then (pyStrip name, cat) else pc) = s.products ++ [(pyStrip name, cat)] := by
        apply map_replace_self
        intro pc hpc hkey
        rcases List.mem_append.mp hpc with h | h
        · exact absurd (hkey ▸ List.mem_map_of_mem Prod.fst h) hp
        · exact List.mem_singleton.mp h
      simp [add_product, hname, hmem, hid]
    · have hkeys : ({ s with products := s.products ++ [(pyStrip name, cat)] } : Store).productNames = s.productNames ++ [pyStrip name] := by
        simp [Store.productNames]
      rw [hkeys]
      simp [countOcc_append, countOcc_eq_zero_of_not_mem hp, countOcc_singleton]

/-- Claim C6: for every non-blank name, `add_user` and `add_product` are
idempotent upserts — repeating the call leaves the store of the first call
unchanged and exactly one node of that kind carries the (stripped) name. -/
theorem claim6_add_idempotent (s : Store) (name : String) (cat : Option String)
    (hWF : WF s) (hname : pyStrip name ≠ "") :
    ∃ s1 s2, add_user true s name = .ok (s1, true)
      ∧ add_user true s1 name = .ok (s1, true)
      ∧ countOcc s1.users (pyStrip name) = 1
      ∧ add_product true s name cat = .ok (s2, true)
      ∧ add_product true s2 name cat = .ok (s2, true)
      ∧ countOcc s2.productNames (pyStrip name) = 1 := by
  obtain ⟨hU, hP, -, -, -, -⟩ := hWF
  obtain ⟨s1, h1, h2, h3⟩ := add_user_idem s name hU hname
  obtain ⟨s2, h4, h5, h6⟩ := add_product_idem s name cat hP hname
  exact ⟨s1, s2, h1, h2, h3, h4, h5, h6⟩

/-- Claim C6, witness on the empty store with the name `Alice`. -/
theorem claim6_witness :
    ∃ s1 s2, add_user true storeEmpty "Alice" = .ok (s1, true)
      ∧ add_user true s1 "Alice" = .ok (s1, true)
      ∧ countOcc s1.users (pyStrip "Alice") = 1
      ∧ add_product true storeEmpty "Alice" none = .ok (s2, true)
      ∧ add_product true s2 "Alice" none = .ok (s2, true)
      ∧ countOcc s2.productNames (pyStrip "Alice") = 1 :=
  claim6_add_idempotent storeEmpty "Alice" none (by decide) (by decide)

/-- Claim C7: `create_follow_relationship` raises for a self-follow (before
touching the store), returns `false` without change when an endpoint is
missing, and when both endpoints exist performs an idempotent edge upsert,
after which exactly one `FOLLOWS` edge joins the ordered pair and the store
is still well-formed. -/
theorem claim7_create_follow (s : Store) (a b : String) (hWF : WF s) :
    (create_follow_relationship true s a a = .error "A user cannot follow themselves")
    ∧ (a ≠ b → (a ∉ s.users ∨ b ∉ s.users) →
        create_follow_relationship true s a b = .ok (s, false))
    ∧ (a ≠ b → a ∈ s.users → b ∈ s.users →
        ∃ s2, create_follow_relationship true s a b = .ok (s2, true)
          ∧ create_follow_relationship true s2 a b = .ok (s2, true)
          ∧ countOcc s2.follows (a, b) = 1
          ∧ WF s2) := by
  obtain ⟨hU, hP, hF, hR, hFe, hRe⟩ := hWF
  refine ⟨by simp [create_follow_relationship], ?_, ?_⟩
  · intro hne hmiss
    have hcond : ¬(a ∈ s.users ∧ b ∈ s.users) := by
      rcases hmiss with h | h
      · exact fun hc => h hc.1
      · exact fun hc => h hc.2
    simp [create_follow_relationship, hne, hcond]
  · intro hne ha hb
    by_cases hmem : (a, b) ∈ s.follows
    · exact ⟨s, by simp [create_follow_relationship, hne, ha, hb, hmem],
        by simp [create_follow_relationship, hne, ha, hb, hmem],
        countOcc_eq_one_of_nodup_mem hF hmem, hU, hP, hF, hR, hFe, hRe⟩
    · refine ⟨{ s with follows := s.follows ++ [(a, b)] },
        by simp [create_follow_relationship, hne, ha, hb, hmem], ?_, ?_, ?_⟩
      · simp [create_follow_relationship, hne, ha, hb]
      · simp [countOcc_append, countOcc_eq_zero_of_not_mem hmem, countOcc_singleton]
      · refine ⟨hU, hP, ?_, hR, ?_, hRe⟩
        · rw [List.nodup_append]
          exact ⟨hF, List.nodup_singleton _,
            fun x hx hx1 => hmem ((List.mem_singleton.mp hx1) ▸ hx)⟩
        · intro e he
          rcases List.mem_append.mp he with h | h
          · exact hFe e h
          · rw [List.mem_singleton.mp h]
            exact ⟨ha, hb⟩

/-- Claim C7, witness on a store with users `A` and `B` and no edges. -/
theorem claim7_witness :
    (create_follow_relationship true storeFol "A" "A" =
      .error "A user cannot follow themselves")
    ∧ ("A" ≠ "B" → ("A" ∉ storeFol.users ∨ "B" ∉ storeFol.users) →
        create_follow_relationship true storeFol "A" "B" = .ok (storeFol, false))
    ∧ ("A" ≠ "B" → "A" ∈ storeFol.users → "B" ∈ storeFol.users →
        ∃ s2, create_follow_relationship true storeFol "A" "B" = .ok (s2, true)
          ∧ create_follow_relationship true s2 "A" "B" = .ok (s2, true)
          ∧ countOcc s2.follows ("A", "B") = 1
          ∧ WF s2) :=
  claim7_create_follow storeFol "A" "B" (by decide)

/-- Inserting with a membership check preserves freedom from duplicates. -/
theorem addIfNew_nodup {α : Type} [DecidableEq α] {acc : List α} (x : α) (h : acc.Nodup) :
    (addIfNew acc x).Nodup := by
  unfold addIfNew
  by_cases hx : x ∈ acc
  · rw [if_pos hx]
    exact h
  · rw [if_neg hx]
    exact List.nodup_append.mpr ⟨h, List.nodup_singleton x,
      fun a ha hax => hx ((List.mem_singleton.mp hax) ▸ ha)⟩

/-- Folding checked inserts preserves freedom from duplicates. -/
theorem foldl_addIfNew_nodup {α : Type} [DecidableEq α] (xs : List α) :
    ∀ acc : List α, acc.Nodup → (xs.foldl addIfNew acc).Nodup := by
  induction xs with
  | nil => exact fun _ h => h
  | cons x xs ih =>
    intro acc h
    rw [List.foldl_cons]
    exact ih _ (addIfNew_nodup x h)

/-- Folding checked inserts of keys preserves freedom from duplicates. -/
theorem foldl_addIfNew_key_nodup {α β : Type} [DecidableEq β] (f : α → β) (xs : List α) :
    ∀ acc : List β, acc.Nodup → (xs.foldl (fun l x => addIfNew l (f x)) acc).Nodup := by
  induction xs with
  | nil => exact fun _ h => h
  | cons x xs ih =>
    intro acc h
    rw [List.foldl_cons]
    exact ih _ (addIfNew_nodup (f x) h)

/-- The node-collecting fold only touches the first component. -/
theorem foldl_nodes_split (ns : List GNode) :
    ∀ acc : List GNode × List (GNode × GNode × String),
      ns.foldl (fun a n => (addIfNew a.1 n, a.2)) acc = (ns.foldl addIfNew acc.1, acc.2) := by
  induction ns with
  | nil => exact fun _ => rfl
  | cons n ns ih =>
    intro acc
    rw [List.foldl_cons, List.foldl_cons, ih]

/-- The edge-collecting fold only touches the second component. -/
theorem foldl_edges_split (rs : List GRel) :
    ∀ acc : List GNode × List (GNode × GNode × String),
      rs.foldl (fun a r => (a.1, addIfNew a.2 (r.src, r.tgt, r.kind))) acc
        = (acc.1, rs.foldl (fun l r => addIfNew l (r.src, r.tgt, r.kind)) acc.2) := by
  induction rs with
  | nil => exact fun _ => rfl
  | cons r rs ih =>
    intro acc
    rw [List.foldl_cons, List.foldl_cons, ih]

/-- Both components produced by the visualization walk are free of
duplicates: each node identity and each `(source, target, kind)` edge key is
emitted at most once. -/
theorem create_user_network_nodup (paths : List GPath) :
    (create_user_network paths).1.Nodup ∧ (create_user_network paths).2.Nodup := by
  suffices h : ∀ acc : List GNode × List (GNode × GNode × String),
      acc.1.Nodup → acc.2.Nodup →
      ((paths.foldl (fun acc p =>
          (p.steps.map Prod.fst).foldl
            (fun a r => (a.1, addIfNew a.2 (r.src, r.tgt, r.kind)))
            (p.nodes.foldl (fun a n => (addIfNew a.1 n, a.2)) acc)) acc).1.Nodup
        ∧ (paths.foldl (fun acc p =>
          (p.steps.map Prod.fst).foldl
            (fun a r => (a.1, addIfNew a.2 (r.src, r.tgt, r.kind)))
            (p.nodes.foldl (fun a n => (addIfNew a.1 n, a.2)) acc)) acc).2.Nodup) by
    exact h ([], []) List.nodup_nil List.nodup_nil
  induction paths with
  | nil => exact fun _ h1 h2 => ⟨h1, h2⟩
  | cons p ps ih =>
    intro acc h1 h2
    rw [List.foldl_cons]
    apply ih
    · rw [foldl_edges_split, foldl_nodes_split]
      exact foldl_addIfNew_nodup p.nodes acc.1 h1
    · rw [foldl_edges_split, foldl_nodes_split]
      exact foldl_addIfNew_key_nodup (fun r => (r.src, r.tgt, r.kind)) (p.steps.map Prod.fst)
        acc.2 h2

/-- Claim C8: `get_user_network` rejects every depth outside `[1, 3]` with
the validation error; for an accepted depth, the successful result holds at
most `200` traversed paths (the `LIMIT 200` cap), and the node and edge
collections the visualization hands to the renderer are deduplicated by
identity — a node appearing on several paths is emitted once, and an edge
key `(source, target, kind)` is emitted once. -/
theorem claim8_network_bound (avail : Bool) (s : Store) (name : String) (depth : Int) :
    ((depth < 1 ∨ 3 < depth) →
      get_user_network avail s name depth = .error "Depth must be between 1 and 3")
    ∧ (∀ ps, get_user_network avail s name depth = .ok (some ps) →
        ps.length ≤ 200
        ∧ (create_user_network ps).1.Nodup
        ∧ (create_user_network ps).2.Nodup) := by
  constructor
  · intro h
    have hc : ¬(1 ≤ depth ∧ depth ≤ 3) := by omega
    simp [get_user_network, hc]
  · intro ps hps
    refine ⟨?_, (create_user_network_nodup ps).1, (create_user_network_nodup ps).2⟩
    by_cases hd : 1 ≤ depth ∧ depth ≤ 3
    · cases avail
      · simp [get_user_network, hd] at hps
      · simp only [get_user_network, hd, if_true, and_self, if_pos, Except.ok.injEq,
          Option.some.injEq] at hps
        rw [← hps]
        simp [List.length_take]
    · simp [get_user_network, hd] at hps

/-- Claim C8, witness: depth `0` is rejected, and at depth `1` from an
isolated user the traversal yields no paths, trivially within the cap and
deduplicated. -/
theorem claim8_witness :
    get_user_network true storeLone "A" 0 = .error "Depth must be between 1 and 3"
    ∧ (List.length ([] : List GPath) ≤ 200
        ∧ (create_user_network ([] : List GPath)).1.Nodup
        ∧ (create_user_network ([] : List GPath)).2.Nodup) :=
  ⟨(claim8_network_bound true storeLone "A" 0).1 (by decide),
   (claim8_network_bound true storeLone "A" 1).2 [] rfl⟩

/-- Projecting the first components of the rows with second component `p`
recovers exactly the pairs `(f, p)` of the list. -/
theorem mem_map_fst_filter_snd {α β : Type} [DecidableEq β] (l : List (α × β)) (p : β)
    (f : α) :
    f ∈ (l.filter (fun x => x.2 = p)).map Prod.fst ↔ (f, p) ∈ l := by
  constructor
  · intro h
    rcases List.mem_map.mp h with ⟨x, hx, hx1⟩
    rcases List.mem_filter.mp hx with ⟨hxl, hx2⟩
    have hx2 : x.2 = p := by simpa using hx2
    have : x = (f, p) := Prod.ext hx1 hx2
    exact this ▸ hxl
  · intro h
    exact List.mem_map.mpr ⟨(f, p), List.mem_filter.mpr ⟨h, by simp⟩, rfl⟩

/-- Projecting the second components of the rows with first component `a`
recovers exactly the pairs `(a, x)` of the list. -/
theorem mem_map_snd_filter_fst {α β : Type} [DecidableEq α] (l : List (α × β)) (a : α)
    (x : β) :
    x ∈ (l.filter (fun y => y.1 = a)).map Prod.snd ↔ (a, x) ∈ l := by
  constructor
  · intro h
    rcases List.mem_map.mp h with ⟨y, hy, hy2⟩
    rcases List.mem_filter.mp hy with ⟨hyl, hy1⟩
    have hy1 : y.1 = a := by simpa using hy1
    have : y = (a, x) := Prod.ext hy1 hy2
    exact this ▸ hyl
  · intro h
    exact List.mem_map.mpr ⟨(a, x), List.mem_filter.mpr ⟨h, by simp⟩, rfl⟩

/-- Membership in the friend-recommendation row set, unfolded to the clauses
of the Cypher pattern. -/
theorem mem_friendRows (s : Store) (name : String) (minRating : Int) (f p : String) :
    (f, p) ∈ friendRows s name minRating ↔
      name ∈ s.users ∧ (name, f) ∈ s.follows ∧ p ∈ s.productNames
      ∧ ¬ hasRated s name p
      ∧ ∃ r ∈ s.rates, r.user = f ∧ r.product = p ∧ minRating ≤ r.rating := by
  by_cases hu : name ∈ s.users
  · simp only [friendRows, if_pos hu, List.mem_flatMap, List.mem_filter, List.mem_map,
      decide_eq_true_eq, hasRated, List.any_eq_true]
    constructor
    · rintro ⟨e, ⟨he, he1⟩, r, ⟨⟨hr, hru, hrr, hrp, hnr⟩, heq⟩⟩
      have he2 : e.2 = f := congrArg Prod.fst heq
      have hrp2 : r.product = p := congrArg Prod.snd heq
      refine ⟨hu, ?_, hrp2 ▸ hrp, ?_, r, hr, he2 ▸ hru, hrp2, hrr⟩
      · have : e = (name, f) := Prod.ext he1 he2
        exact this ▸ he
      · rintro ⟨r0, hr0, hr0u, hr0p⟩
        exact hnr ⟨r0, hr0, hr0u, hr0p.trans hrp2.symm⟩
    · rintro ⟨-, hfol, hp, hnr, r, hr, hru, hrp, hrr⟩
      refine ⟨(name, f), ⟨hfol, rfl⟩, r, ⟨⟨hr, hru, hrr, hrp ▸ hp, ?_⟩, by rw [hrp]⟩⟩
      rintro ⟨r0, hr0, hr0u, hr0p⟩
      exact hnr ⟨r0, hr0, hr0u, hr0p.trans hrp⟩
  · simp only [friendRows, if_neg hu]
    simp [hu]

/-- Membership in the claim-side set of qualifying friends. -/
theorem mem_qualFriends (s : Store) (name p : String) (minRating : Int) (f : String) :
    f ∈ qualFriends s name p minRating ↔
      (name, f) ∈ s.follows
      ∧ ∃ r ∈ s.rates, r.user = f ∧ r.product = p ∧ minRating ≤ r.rating := by
  unfold qualFriends
  rw [Finset.mem_filter, List.mem_toFinset, mem_map_snd_filter_fst]

/-- Membership in the grouped rows. -/
theorem mem_groupByProduct (rows : List (String × String)) (q : String) (l : List String) :
    (q, l) ∈ groupByProduct rows ↔
      q ∈ rows.map Prod.snd
      ∧ l = ((rows.filter (fun x => x.2 = q)).map Prod.fst).dedup := by
  unfold groupByProduct
  constructor
  · intro h
    rcases List.mem_map.mp h with ⟨q0, hq0, heq⟩
    have h1 : q0 = q := congrArg Prod.fst heq
    have h2 : ((rows.filter (fun x => x.2 = q0)).map Prod.fst).dedup = l :=
      congrArg Prod.snd heq
    constructor
    · rw [← h1]
      exact List.mem_dedup.mp hq0
    · rw [← h2, h1]
  · rintro ⟨hq, hl⟩
    exact List.mem_map.mpr ⟨q, List.mem_dedup.mpr hq, by rw [← hl]⟩

/-- Membership in the friend recommendation list, reduced to the row set. -/
theorem friendRec_mem_iff (s : Store) (name : String) (minFriends minRating : Int)
    (p : String) (cnt : Nat) (fr : List String) :
    FriendRec.mk p cnt fr ∈ recommend_by_friends true s name minFriends minRating ↔
      p ∈ (friendRows s name minRating).map Prod.snd
      ∧ fr = (((friendRows s name minRating).filter (fun x => x.2 = p)).map Prod.fst).dedup
      ∧ cnt = fr.length ∧ minFriends ≤ (fr.length : Int) := by
  rw [show recommend_by_friends true s name minFriends minRating =
      (((groupByProduct (friendRows s name minRating)).filter
          (fun g => minFriends ≤ (g.2.length : Int))).map
        (fun g => FriendRec.mk g.1 g.2.length g.2)).insertionSort frOrder from rfl]
  rw [(List.perm_insertionSort frOrder _).mem_iff]
  constructor
  · intro h
    rcases List.mem_map.mp h with ⟨g, hgkept, heq⟩
    rcases List.mem_filter.mp hgkept with ⟨hg, hgf⟩
    have hgf2 : minFriends ≤ (g.2.length : Int) := by simpa using hgf
    rcases g with ⟨q, l⟩
    rcases (mem_groupByProduct _ _ _).mp hg with ⟨hq, hl⟩
    have h1 : q = p := congrArg FriendRec.product heq
    have h2 : l.length = cnt := congrArg FriendRec.recommendation_count heq
    have h3 : l = fr := congrArg FriendRec.recommended_by heq
    rw [h1] at hq hl
    rw [h3] at hl h2 hgf2
    exact ⟨hq, hl, h2.symm, hgf2⟩
  · rintro ⟨hp, hfr, hcnt, hmf⟩
    refine List.mem_map.mpr ⟨(p, fr),
      List.mem_filter.mpr ⟨(mem_groupByProduct _ _ _).mpr ⟨hp, hfr⟩, by simpa using hmf⟩, ?_⟩
    rw [hcnt]

/-- Under well-formedness, a product has a friend-recommendation row exactly
when it has a qualifying friend and the user has not rated it. -/
theorem rowsProducts_iff (s : Store) (name : String) (minRating : Int) (p : String)
    (hWF : WF s) :
    p ∈ (friendRows s name minRating).map Prod.snd ↔
      (qualFriends s name p minRating).Nonempty ∧ ¬ hasRated s name p := by
  obtain ⟨-, -, -, -, hFe, hRe⟩ := hWF
  constructor
  · intro hp
    rcases List.mem_map.mp hp with ⟨x, hx, hx2⟩
    rcases x with ⟨f, p0⟩
    have hp0 : p0 = p := hx2
    rw [hp0] at hx
    rcases (mem_friendRows s name minRating f p).mp hx with ⟨-, hfol, -, hnr, hrate⟩
    exact ⟨⟨f, (mem_qualFriends s name p minRating f).mpr ⟨hfol, hrate⟩⟩, hnr⟩
  · rintro ⟨⟨f, hf⟩, hnr⟩
    rcases (mem_qualFriends s name p minRating f).mp hf with ⟨hfol, r, hr, hru, hrp, hrr⟩
    have hu : name ∈ s.users := (hFe (name, f) hfol).1
    have hp : p ∈ s.productNames := hrp ▸ (hRe r hr).2
    exact List.mem_map.mpr ⟨(f, p),
      (mem_friendRows s name minRating f p).mpr ⟨hu, hfol, hp, hnr, r, hr, hru, hrp, hrr⟩,
      rfl⟩

/-- Under well-formedness, when the user has not rated `p` the deduplicated
row friends of `p` are exactly the qualifying friends. -/
theorem dedupFriends_spec (s : Store) (name : String) (minRating : Int) (p : String)
    (hWF : WF s) (hnr : ¬ hasRated s name p) :
    ((((friendRows s name minRating).filter (fun x => x.2 = p)).map Prod.fst).dedup.toFinset
        = qualFriends s name p minRating)
    ∧ ((((friendRows s name minRating).filter (fun x => x.2 = p)).map Prod.fst).dedup.length
        = (qualFriends s name p minRating).card) := by
  obtain ⟨-, -, -, -, hFe, hRe⟩ := hWF
  have hmem : ∀ f : String,
      f ∈ (((friendRows s name minRating).filter (fun x => x.2 = p)).map Prod.fst).dedup ↔
        f ∈ qualFriends s name p minRating := by
    intro f
    rw [List.mem_dedup, mem_map_fst_filter_snd, mem_friendRows, mem_qualFriends]
    constructor
    · rintro ⟨-, hfol, -, -, hrate⟩
      exact ⟨hfol, hrate⟩
    · rintro ⟨hfol, r, hr, hru, hrp, hrr⟩
      exact ⟨(hFe (name, f) hfol).1, hfol, hrp ▸ (hRe r hr).2, hnr, r, hr, hru, hrp, hrr⟩
  have hset : (((friendRows s name minRating).filter
      (fun x => x.2 = p)).map Prod.fst).dedup.toFinset = qualFriends s name p minRating := by
    apply Finset.ext
    intro f
    rw [List.mem_toFinset]
    exact hmem f
  refine ⟨hset, ?_⟩
  rw [← hset]
  exact (List.toFinset_card_of_nodup (List.nodup_dedup _)).symm

/-- Claim C3: `recommend_by_friends` returns exactly the products having a
qualifying friend (followed by the user and rating the product at least
`minRating`) that the user has not rated, each product appearing once, with
`recommended_by` the distinct set of its qualifying friends,
`recommendation_count` the size of that set, and only groups meeting
`minFriends` kept. -/
theorem claim3_recommend_by_friends (s : Store) (name : String) (minFriends minRating : Int)
    (p : String) (cnt : Nat) (fr : List String) (hWF : WF s) :
    ((∃ c f2, FriendRec.mk p c f2 ∈ recommend_by_friends true s name minFriends minRating) ↔
      ((qualFriends s name p minRating).Nonempty
        ∧ ¬ hasRated s name p
        ∧ minFriends ≤ ((qualFriends s name p minRating).card : Int)))
    ∧ (FriendRec.mk p cnt fr ∈ recommend_by_friends true s name minFriends minRating →
        fr.Nodup ∧ fr.toFinset = qualFriends s name p minRating
          ∧ cnt = (qualFriends s name p minRating).card)
    ∧ ((recommend_by_friends true s name minFriends minRating).map FriendRec.product).Nodup := by
  refine ⟨?_, ?_, ?_⟩
  · constructor
    · rintro ⟨c, f2, hmem⟩
      rcases (friendRec_mem_iff s name minFriends minRating p c f2).mp hmem with
        ⟨hp, hf2, hc, hmf⟩
      rcases (rowsProducts_iff s name minRating p hWF).mp hp with ⟨hne, hnr⟩
      rcases dedupFriends_spec s name minRating p hWF hnr with ⟨-, hlen⟩
      refine ⟨hne, hnr, ?_⟩
      rw [← hlen, ← hf2]
      exact hmf
    · rintro ⟨hne, hnr, hcard⟩
      rcases dedupFriends_spec s name minRating p hWF hnr with ⟨-, hlen⟩
      refine ⟨(((friendRows s name minRating).filter (fun x => x.2 = p)).map Prod.fst).dedup.length,
        (((friendRows s name minRating).filter (fun x => x.2 = p)).map Prod.fst).dedup, ?_⟩
      apply (friendRec_mem_iff s name minFriends minRating p _ _).mpr
      refine ⟨(rowsProducts_iff s name minRating p hWF).mpr ⟨hne, hnr⟩, rfl, rfl, ?_⟩
      rw [hlen]
      exact hcard
  · intro hmem
    rcases (friendRec_mem_iff s name minFriends minRating p cnt fr).mp hmem with
      ⟨hp, hfr, hcnt, -⟩
    rcases (rowsProducts_iff s name minRating p hWF).mp hp with ⟨-, hnr⟩
    rcases dedupFriends_spec s name minRating p hWF hnr with ⟨hset, hlen⟩
    subst hfr
    exact ⟨List.nodup_dedup _, hset, hcnt.trans hlen⟩
  · have hperm : List.Perm
        ((recommend_by_friends true s name minFriends minRating).map FriendRec.product)
        ((((groupByProduct (friendRows s name minRating)).filter
            (fun g => minFriends ≤ (g.2.length : Int))).map
          (fun g => FriendRec.mk g.1 g.2.length g.2)).map FriendRec.product) := by
      apply List.Perm.map
      exact List.perm_insertionSort frOrder _
    rw [hperm.nodup_iff, List.map_map]
    have hsub : List.Sublist
        (((groupByProduct (friendRows s name minRating)).filter
          (fun g => minFriends ≤ (g.2.length : Int))).map
            (FriendRec.product ∘ fun g => FriendRec.mk g.1 g.2.length g.2))
        ((groupByProduct (friendRows s name minRating)).map
            (FriendRec.product ∘ fun g => FriendRec.mk g.1 g.2.length g.2)) :=
      List.Sublist.map _ (List.filter_sublist _)
    apply List.Nodup.sublist hsub
    have : (groupByProduct (friendRows s name minRating)).map
        (FriendRec.product ∘ fun g => FriendRec.mk g.1 g.2.length g.2)
        = ((friendRows s name minRating).map Prod.snd).dedup := by
      unfold groupByProduct
      rw [List.map_map]
      exact List.map_id _
    rw [this]
    exact List.nodup_dedup _

/-- Claim C3, witness: the end-to-end scenario — `Widget` with count `2` and
friends `Bob`, `Charlie` for `recommendByFriends("Alice", 2, 4)`. -/
theorem claim3_witness :
    ((∃ c f2, FriendRec.mk "Widget" c f2 ∈ recommend_by_friends true storeE2E "Alice" 2 4) ↔
      ((qualFriends storeE2E "Alice" "Widget" 4).Nonempty
        ∧ ¬ hasRated storeE2E "Alice" "Widget"
        ∧ 2 ≤ ((qualFriends storeE2E "Alice" "Widget" 4).card : Int)))
    ∧ (FriendRec.mk "Widget" 2 ["Bob", "Charlie"] ∈
          recommend_by_friends true storeE2E "Alice" 2 4 →
        List.Nodup ["Bob", "Charlie"]
          ∧ (["Bob", "Charlie"] : List String).toFinset = qualFriends storeE2E "Alice" "Widget" 4
          ∧ 2 = (qualFriends storeE2E "Alice" "Widget" 4).card)
    ∧ ((recommend_by_friends true storeE2E "Alice" 2 4).map FriendRec.product).Nodup :=
  claim3_recommend_by_friends storeE2E "Alice" 2 4 "Widget" 2 ["Bob", "Charlie"] (by decide)

/-- A duplicate-free list of copies of one value has at most one element. -/
theorem length_le_one_of_nodup_const {α : Type} {l : List α} {a : α}
    (hn : l.Nodup) (hc : ∀ x ∈ l, x = a) : l.length ≤ 1 := by
  cases l with
  | nil => simp
  | cons x xs =>
    cases xs with
    | nil => simp
    | cons y ys =>
      exfalso
      have hx : x = a := hc x (List.mem_cons_self x (y :: ys))
      have hy : y = a := hc y (List.mem_cons_of_mem x (List.mem_cons_self y ys))
      rcases List.nodup_cons.mp hn with ⟨hxm, -⟩
      have hxy : x = y := hx.trans hy.symm
      exact hxm (hxy ▸ List.mem_cons_self y ys)

/-- Lists with at most one element are duplicate-free. -/
theorem nodup_of_length_le_one {α : Type} {l : List α} (h : l.length ≤ 1) : l.Nodup := by
  cases l with
  | nil => exact List.nodup_nil
  | cons x xs =>
    cases xs with
    | nil => exact List.nodup_singleton x
    | cons y ys => simp at h

/-- Membership in the similarity-discovery row set, unfolded to the clauses
of the Cypher pattern. -/
theorem mem_simRows (s : Store) (name : String) (threshold : Int) (x p : String) :
    (x, p) ∈ simRows s name threshold ↔
      name ∈ s.users ∧ p ∈ s.productNames ∧ x ∈ s.users ∧ x ≠ name
      ∧ ∃ r1 ∈ s.rates, ∃ r2 ∈ s.rates, r1.user = name ∧ r1.product = p
          ∧ r2.user = x ∧ r2.product = p ∧ |r1.rating - r2.rating| ≤ threshold := by
  by_cases hu : name ∈ s.users
  · simp only [simRows, if_pos hu, List.mem_flatMap]
    constructor
    · rintro ⟨r1, hr1, hx⟩
      by_cases hc : r1.user = name ∧ r1.product ∈ s.productNames
      · rw [if_pos hc] at hx
        rcases List.mem_map.mp hx with ⟨r2, hr2f, heq⟩
        rcases List.mem_filter.mp hr2f with ⟨hr2, hcond⟩
        have hcond2 : r2.product = r1.product ∧ r2.user ≠ r1.user ∧ r2.user ∈ s.users
            ∧ |r1.rating - r2.rating| ≤ threshold := by simpa using hcond
        have he1 : r2.user = x := congrArg Prod.fst heq
        have he2 : r1.product = p := congrArg Prod.snd heq
        refine ⟨hu, he2 ▸ hc.2, he1 ▸ hcond2.2.2.1, ?_, r1, hr1, r2, hr2, hc.1, he2,
          he1, hcond2.1.trans he2, hcond2.2.2.2⟩
        rw [← he1]
        rw [← hc.1]
        exact hcond2.2.1
      · rw [if_neg hc] at hx
        exact absurd hx (List.not_mem_nil _)
    · rintro ⟨-, hp, hxu, hxn, r1, hr1, r2, hr2, h1u, h1p, h2u, h2p, hd⟩
      refine ⟨r1, hr1, ?_⟩
      have hc : r1.user = name ∧ r1.product ∈ s.productNames := ⟨h1u, h1p ▸ hp⟩
      rw [if_pos hc]
      refine List.mem_map.mpr ⟨r2, List.mem_filter.mpr ⟨hr2, ?_⟩, ?_⟩
      · simp only [decide_eq_true_eq]
        refine ⟨h2p.trans h1p.symm, ?_, h2u ▸ hxu, hd⟩
        rw [h2u, h1u]
        exact hxn
      · exact Prod.ext h2u h1p
  · constructor
    · intro hx
      rw [simRows, if_neg hu] at hx
      exact absurd hx (List.not_mem_nil _)
    · rintro ⟨hu2, -⟩
      exact absurd hu2 hu

/-- Membership in the claim-side set of shared close-rated products. -/
theorem mem_sharedCloseProducts (s : Store) (name other : String) (threshold : Int)
    (p : String) :
    p ∈ sharedCloseProducts s name other threshold ↔
      ∃ r1 ∈ s.rates, ∃ r2 ∈ s.rates, r1.user = name ∧ r2.user = other
        ∧ r1.product = p ∧ r2.product = p ∧ |r1.rating - r2.rating| ≤ threshold := by
  unfold sharedCloseProducts
  rw [Finset.mem_filter, List.mem_toFinset]
  constructor
  · rintro ⟨-, h⟩
    exact h
  · intro h
    refine ⟨?_, h⟩
    rcases h with ⟨r1, hr1, r2, hr2, h1u, h2u, h1p, h2p, hd⟩
    exact List.mem_map.mpr ⟨r1, List.mem_filter.mpr ⟨hr1, by simp [h1u]⟩, h1p⟩

/-- When the store holds at most one `RATES` edge per `(user, product)`, the
candidate rows of one similar user name different products: projecting the
products is duplicate-free. -/
theorem simRows_filter_snd_nodup (s : Store) (name other : String) (threshold : Int)
    (hR : (s.rates.map (fun r => (r.user, r.product))).Nodup) :
    (((simRows s name threshold).filter (fun y => y.1 = other)).map Prod.snd).Nodup := by
  by_cases hu : name ∈ s.users
  · have hrw : simRows s name threshold = s.rates.flatMap (fun r1 =>
        if r1.user = name ∧ r1.product ∈ s.productNames then
          (s.rates.filter (fun r2 => r2.product = r1.product ∧ r2.user ≠ r1.user
              ∧ r2.user ∈ s.users ∧ |r1.rating - r2.rating| ≤ threshold)).map
            (fun r2 => (r2.user, r1.product))
        else []) := by
      rw [simRows, if_pos hu]
    rw [hrw, List.filter_flatMap, List.map_flatMap]
    have hmemprod : ∀ (r1 : RateEdge) (x : String),
        x ∈ (List.filter (fun y => y.1 = other)
            (if r1.user = name ∧ r1.product ∈ s.productNames then
              (s.rates.filter (fun r2 => r2.product = r1.product ∧ r2.user ≠ r1.user
                  ∧ r2.user ∈ s.users ∧ |r1.rating - r2.rating| ≤ threshold)).map
                (fun r2 => (r2.user, r1.product))
            else [])).map Prod.snd →
          r1.user = name ∧ x = r1.product := by
      intro r1 x hx
      by_cases hc : r1.user = name ∧ r1.product ∈ s.productNames
      · rw [if_pos hc] at hx
        rcases List.mem_map.mp hx with ⟨y, hy, hy2⟩
        rcases List.mem_filter.mp hy with ⟨hym, -⟩
        rcases List.mem_map.mp hym with ⟨r2, -, hr2⟩
        have : y.2 = r1.product := by rw [← hr2]
        exact ⟨hc.1, hy2 ▸ this⟩
      · rw [if_neg hc] at hx
        simp at hx
    rw [List.nodup_flatMap]
    constructor
    · intro r1 hr1m
      by_cases hc : r1.user = name ∧ r1.product ∈ s.productNames
      · rw [if_pos hc, List.filter_map, List.map_map]
        apply nodup_of_length_le_one
        rw [List.length_map]
        set L := List.filter
            ((fun y => decide (y.1 = other)) ∘ fun r2 => (r2.user, r1.product))
            (s.rates.filter (fun r2 => r2.product = r1.product ∧ r2.user ≠ r1.user
                ∧ r2.user ∈ s.users ∧ |r1.rating - r2.rating| ≤ threshold)) with hL
        have hsub : List.Sublist L s.rates :=
          (List.filter_sublist _).trans (List.filter_sublist _)
        have hkeys : (L.map (fun r => (r.user, r.product))).Nodup :=
          List.Nodup.sublist (List.Sublist.map _ hsub) hR
        have hconst : ∀ k ∈ L.map (fun r => (r.user, r.product)), k = (other, r1.product) := by
          intro k hk
          rcases List.mem_map.mp hk with ⟨r2, hr2, hk2⟩
          rw [hL] at hr2
          rcases List.mem_filter.mp hr2 with ⟨hr2i, hother⟩
          rcases List.mem_filter.mp hr2i with ⟨-, hcnd⟩
          have hcndf : r2.product = r1.product ∧ r2.user ≠ r1.user ∧ r2.user ∈ s.users
              ∧ |r1.rating - r2.rating| ≤ threshold := by simpa using hcnd
          have hother2 : r2.user = other := by simpa using hother
          rw [← hk2, hother2, hcndf.1]
        have := length_le_one_of_nodup_const hkeys hconst
        rw [List.length_map] at this
        exact this
      · rw [if_neg hc]
        simp
    · have hkeyPW : List.Pairwise
          (fun a b : RateEdge => (a.user, a.product) ≠ (b.user, b.product)) s.rates :=
        List.pairwise_map.mp hR
      refine hkeyPW.imp ?_
      intro a b hne x hxa hxb
      rcases hmemprod a x hxa with ⟨hau, hap⟩
      rcases hmemprod b x hxb with ⟨hbu, hbp⟩
      apply hne
      rw [hau, hbu, ← hap, ← hbp]
  · simp [simRows, hu]

/-- Under well-formedness, the `count(*)` of stage one equals the number of
shared close-rated products of the candidate. -/
theorem simRows_filter_card (s : Store) (name other : String) (threshold : Int)
    (hWF : WF s) (hne : other ≠ name) :
    ((simRows s name threshold).filter (fun y => y.1 = other)).length
      = (sharedCloseProducts s name other threshold).card := by
  obtain ⟨-, -, -, hR, -, hRe⟩ := hWF
  have hnd := simRows_filter_snd_nodup s name other threshold hR
  have hmm : ∀ p, p ∈ ((simRows s name threshold).filter
      (fun y => y.1 = other)).map Prod.snd ↔
        p ∈ sharedCloseProducts s name other threshold := by
    intro p
    rw [mem_map_snd_filter_fst, mem_simRows, mem_sharedCloseProducts]
    constructor
    · rintro ⟨-, -, -, -, r1, hr1, r2, hr2, h1u, h1p, h2u, h2p, hd⟩
      exact ⟨r1, hr1, r2, hr2, h1u, h2u, h1p, h2p, hd⟩
    · rintro ⟨r1, hr1, r2, hr2, h1u, h2u, h1p, h2p, hd⟩
      exact ⟨h1u ▸ (hRe r1 hr1).1, h1p ▸ (hRe r1 hr1).2, h2u ▸ (hRe r2 hr2).1, hne,
        r1, hr1, r2, hr2, h1u, h1p, h2u, h2p, hd⟩
  calc ((simRows s name threshold).filter (fun y => y.1 = other)).length
      = (((simRows s name threshold).filter (fun y => y.1 = other)).map Prod.snd).length :=
        (List.length_map _ _).symm
    _ = (((simRows s name threshold).filter
          (fun y => y.1 = other)).map Prod.snd).toFinset.card :=
        (List.toFinset_card_of_nodup hnd).symm
    _ = (sharedCloseProducts s name other threshold).card := by
        congr 1
        apply Finset.ext
        intro p
        rw [List.mem_toFinset]
        exact hmm p

/-- Claim C4: a candidate user qualifies as similar exactly when at least
two products are rated by both the candidate and the querying user with
rating difference within the threshold; a candidate with at most one such
shared product (in particular exactly one) appears in no
`recommended_by_similar` list and so contributes nothing. -/
theorem claim4_similarity_gate (s : Store) (name other : String)
    (threshold minRating : Int) (hWF : WF s) (hne : other ≠ name) :
    (other ∈ similarUsers s name threshold ↔
        2 ≤ (sharedCloseProducts s name other threshold).card)
    ∧ ((sharedCloseProducts s name other threshold).card ≤ 1 →
        ∀ e ∈ recommend_collaborative true s name threshold minRating,
          other ∉ e.recommended_by_similar) := by
  have hcard := simRows_filter_card s name other threshold hWF hne
  have hiff : other ∈ similarUsers s name threshold ↔
      2 ≤ (sharedCloseProducts s name other threshold).card := by
    unfold similarUsers
    constructor
    · intro h
      rcases List.mem_filter.mp h with ⟨-, hp⟩
      have hp2 : 2 ≤ ((simRows s name threshold).filter (fun y => y.1 = other)).length := by
        simpa using hp
      rw [hcard] at hp2
      exact hp2
    · intro h2
      have hlen : 2 ≤ ((simRows s name threshold).filter (fun y => y.1 = other)).length := by
        rw [hcard]
        exact h2
      have hpos : 0 < ((simRows s name threshold).filter (fun y => y.1 = other)).length := by
        omega
      obtain ⟨y, hy⟩ := List.exists_mem_of_length_pos hpos
      rcases List.mem_filter.mp hy with ⟨hyr, hy1⟩
      have hy1 : y.1 = other := by simpa using hy1
      refine List.mem_filter.mpr ⟨?_, by simpa using hlen⟩
      exact List.mem_dedup.mpr (List.mem_map.mpr ⟨y, hyr, hy1⟩)
  refine ⟨hiff, ?_⟩
  intro hc1 e he hmem
  have hnotsim : other ∉ similarUsers s name threshold := by
    intro hs
    have h2 := hiff.mp hs
    omega
  rw [show recommend_collaborative true s name threshold minRating =
      (((collabGroups s name threshold minRating).insertionSort cgOrder).map
        (fun g => CollabRec.mk g.1 g.2.1 ((cypherRound (g.2.2.1 * 100) : ℚ) / 100) g.2.2.2))
      from rfl] at he
  rcases List.mem_map.mp he with ⟨g, hg, hge⟩
  have hgmem : g ∈ collabGroups s name threshold minRating :=
    (List.perm_insertionSort cgOrder _).subset hg
  have hrec : e.recommended_by_similar = g.2.2.2 := by rw [← hge]
  rw [hrec] at hmem
  unfold collabGroups at hgmem
  rcases List.mem_map.mp hgmem with ⟨p0, -, hgeq⟩
  have hsims : g.2.2.2 = (((collabRows s name threshold minRating).filter
      (fun x => x.2.1 = p0)).map Prod.fst).dedup := by
    rw [← hgeq]
  rw [hsims] at hmem
  rcases List.mem_map.mp (List.mem_dedup.mp hmem) with ⟨row, hrow, hrow1⟩
  rcases List.mem_filter.mp hrow with ⟨hrowr, -⟩
  unfold collabRows at hrowr
  rcases List.mem_flatMap.mp hrowr with ⟨sim, hsim, hrow2⟩
  rcases List.mem_map.mp hrow2 with ⟨r3, -, hr3eq⟩
  have hrsim : row.1 = sim := by rw [← hr3eq]
  exact hnotsim ((hrsim.symm.trans hrow1) ▸ hsim)

/-- Claim C4, witness: on `storeSim`, `v` shares exactly two close-rated
products with `u`, so the similarity gate is met and the second clause is
vacuous. -/
theorem claim4_witness :
    (("v" ∈ similarUsers storeSim "u" 1) ↔ 2 ≤ (sharedCloseProducts storeSim "u" "v" 1).card)
    ∧ ((sharedCloseProducts storeSim "u" "v" 1).card ≤ 1 →
        ∀ e ∈ recommend_collaborative true storeSim "u" 1 4,
          "v" ∉ e.recommended_by_similar) :=
  claim4_similarity_gate storeSim "u" "v" 1 4 (by decide) (by decide)
